import Mathlib

/-!
Verification development for the vis_partition partition visualizer
(src/vis_partition.py).  The Python source is shallowly embedded: strings
are Lean strings (lists of characters), Python integers are Lean Int,
fallible code returns Except, and each Python function keeps its name
where the language allows it.  The regular-expression splits of the source
are embedded as explicit character scans with the same observable
behaviour on the inputs the program feeds them.
-/

namespace VisPartition

/-- Errors a Python call can raise: ValueError (failed unpacking, int() on a
non-integer, max() of an empty sequence), IndexError (indexing an empty
string or a too-short list) and AssertionError (a failed assert statement). -/
inductive PyErr where
  | valueError
  | indexError
  | assertError
deriving DecidableEq

/-- Whitespace characters recognised by the strip and split methods of
Python str (the ASCII ones; the inputs of this program are ASCII). -/
def pySpace (c : Char) : Bool :=
  c = ' ' || c = '\t' || c = '\n' || c = '\r' || c = '\x0b' || c = '\x0c'

/-- Python str.strip on a character list: drop whitespace from both ends. -/
def pyStripChars (cs : List Char) : List Char :=
  ((cs.dropWhile pySpace).reverse.dropWhile pySpace).reverse

/-- Python str.strip as a String operation. -/
def pyStrip (s : String) : String :=
  String.mk (pyStripChars s.data)

/-- Python string repetition c * n: the empty string when n is negative. -/
def pyRepl (c : Char) (n : Int) : String :=
  String.mk (List.replicate n.toNat c)

/-- Python sep.join(parts). -/
def sepJoin (sep : String) : List String → String
  | [] => ""
  | [x] => x
  | x :: y :: rest => x ++ sep ++ sepJoin sep (y :: rest)

/-- The source's removeprefix helper (line 57): drop p when it leads cs. -/
def removePre (cs p : List Char) : List Char :=
  if p.isPrefixOf cs then cs.drop p.length else cs

/-- The source's removesuffix helper (line 63): drop p when it ends cs. -/
def removeSuf (cs p : List Char) : List Char :=
  if p.isSuffixOf cs then cs.take (cs.length - p.length) else cs

/-- A nonempty all-digit character list read as a number, otherwise none. -/
def digitsToNat (cs : List Char) : Option Nat :=
  if cs ≠ [] ∧ cs.all Char.isDigit then
    some (cs.foldl (fun n c => 10 * n + (c.toNat - 48)) 0)
  else none

/-- Python int(s) on the strings this program builds: optional surrounding
whitespace, an optional sign, then decimal digits; anything else fails. -/
def pyInt (s : String) : Option Int :=
  match pyStripChars s.data with
  | '+' :: ds => (digitsToNat ds).map Int.ofNat
  | '-' :: ds => (digitsToNat ds).map (fun n => -(n : Int))
  | ds => (digitsToNat ds).map Int.ofNat

/-- Python part.split on a single comma: split at every comma, keeping
empty segments. -/
def splitComma (cs : List Char) : List (List Char) :=
  cs.foldr
    (fun c acc =>
      match acc with
      | [] => [[c]]
      | seg :: rest => if c = ',' then [] :: seg :: rest else (c :: seg) :: rest)
    [[]]

/-- Python max over a list of integers; 0 for the empty list, which the
callers below never pass (they raise first). -/
def pyMaxI : List Int → Int
  | [] => 0
  | x :: xs => xs.foldl max x

/-- Maximum of a list of naturals, 0 for the empty list. -/
def natMaxList (l : List Nat) : Nat :=
  l.foldl max 0

/-- Elements at even positions of a list, the [::2] slice of Python. -/
def everyOther : List α → List α
  | [] => []
  | [x] => [x]
  | x :: _ :: rest => x :: everyOther rest

/-- Effectful map over a list in the Except monad, stopping at the first
error: the behaviour of a Python loop or comprehension that can raise. -/
def exMapM (f : α → Except PyErr β) : List α → Except PyErr (List β)
  | [] => Except.ok []
  | a :: l =>
    match f a with
    | Except.error e => Except.error e
    | Except.ok b =>
      match exMapM f l with
      | Except.error e => Except.error e
      | Except.ok bs => Except.ok (b :: bs)

/-! ## The parser (lines 69-116 of the source) -/

/-- A parsed group.  The source represents it as the Python list
[sign, lead, partition, partition, ...]; here the three parts are named
fields.  The Python len of that list is 2 + the number of partitions. -/
structure Group where
  sign : String
  lead : String
  partitions : List (List Int)
deriving DecidableEq

/-- Python len of the list [sign, lead, partitions...] that the source uses
to represent a group. -/
def groupListLen (g : Group) : Nat :=
  2 + g.partitions.length

/-- One step of the sign split re.split on the pattern of a plus or minus,
keeping the sign characters as their own tokens (line 105). -/
def signStep (c : Char) (acc : List (List Char)) : List (List Char) :=
  match acc with
  | [] => [[c]]
  | seg :: rest =>
    if c = '+' || c = '-' then [] :: [c] :: seg :: rest else (c :: seg) :: rest

/-- The re.split of the raw input on plus and minus characters, with the
signs kept as their own tokens. -/
def pySplitSigns (cs : List Char) : List String :=
  (cs.foldr signStep [[]]).map (fun l => String.mk l)

/-- The first split of substring_to_group (line 79): re.split on the pattern
of an S followed by the rest of the line, once.  The result is the text
before the first S and the match (from that S to the end of its line);
whatever follows the first newline after the S is dropped by the source.
With no S anywhere the split yields a single piece and the three-way
unpacking raises ValueError, so the result is none. -/
def splitFirstSLine : List Char → Option (List Char × List Char)
  | [] => none
  | c :: rest =>
    if c = 'S' then some ([], c :: rest.takeWhile (fun d => d ≠ '\n'))
    else (splitFirstSLine rest).map (fun p => (c :: p.1, p.2))

/-- One step of the label split re.split on the pattern of an S followed by
digits (line 80), scanning from the right: when an S is directly followed by
at least one digit, the S and the whole digit run become their own token. -/
def sDigitsStep (c : Char) (acc : List (List Char)) : List (List Char) :=
  match acc with
  | [] => [[c]]
  | seg :: rest =>
    if c = 'S' && (seg.headD ' ').isDigit then
      [] :: ('S' :: seg.takeWhile Char.isDigit) :: seg.dropWhile Char.isDigit :: rest
    else (c :: seg) :: rest

/-- The re.split of a group body on label tokens of the form S followed by
digits, keeping the label tokens. -/
def pySplitSDigits (cs : List Char) : List (List Char) :=
  cs.foldr sDigitsStep [[]]

/-- Lines 79-87 of substring_to_group: split off the lead, split the body on
label tokens, read each label's number and strip the brackets from each
partition text, pairing them up exactly as the source's zip does. -/
def extractTerms (cs : List Char) : Except PyErr (List Char × List (Int × List Char)) :=
  match splitFirstSLine cs with
  | none => Except.error PyErr.valueError
  | some (lead, matched) =>
    let s_part_strings := (pySplitSDigits matched).drop 1
    let s_strings := everyOther s_part_strings
    let part_strings := everyOther (s_part_strings.drop 1)
    match exMapM (fun x =>
      match pyInt (String.mk (removePre x ['S'])) with
      | some n => Except.ok n
      | none => Except.error PyErr.valueError) s_strings with
    | Except.error e => Except.error e
    | Except.ok s_ints =>
      let parts := part_strings.map (fun x => removeSuf (removePre (pyStripChars x) ['[']) [']'])
      Except.ok (lead, List.zip s_ints parts)

/-- The comparison key of the sort at line 88: ascending label. -/
def labelLE (a b : Int × List Char) : Prop :=
  a.1 ≤ b.1

instance : DecidableRel labelLE := fun a b => inferInstanceAs (Decidable (a.1 ≤ b.1))

/-- Parse one bracket-stripped partition text: split on commas, strip each
entry and read it with int(), raising ValueError on a non-integer entry
(line 91). -/
def parsePartText (part : List Char) : Except PyErr (List Int) :=
  exMapM (fun x =>
    match pyInt (String.mk x) with
    | some n => Except.ok n
    | none => Except.error PyErr.valueError) (splitComma part)

/-- substring_to_group (line 69): lead text plus the partitions, the
(label, partition) pairs stable-sorted ascending by label (Python list.sort
is stable; List.insertionSort with a total preorder is the same stable
sort), labels dropped after sorting. -/
def substring_to_group (s : String) : Except PyErr (String × List (List Int)) :=
  match extractTerms s.data with
  | Except.error e => Except.error e
  | Except.ok (lead, terms) =>
    match exMapM (fun t => parsePartText t.2) (List.insertionSort labelLE terms) with
    | Except.error e => Except.error e
    | Except.ok partitions => Except.ok (String.mk lead, partitions)

/-- The token list of string_to_encoding after stripping and sign
normalization (lines 105-110): strip every token; when the first token is
empty it is discarded, otherwise an implicit plus is prepended. -/
def normTokens (cs : List Char) : List String :=
  let substrings := (pySplitSigns cs).map pyStrip
  if (substrings.headD "").length = 0 then substrings.drop 1
  else "+" :: substrings

/-- Pair the normalized tokens as (sign, body); none models the failed
assert on an odd token count (line 111). -/
def pairUp : List String → Option (List (String × String))
  | [] => some []
  | [_] => none
  | a :: b :: rest => (pairUp rest).map (fun l => (a, b) :: l)

/-- string_to_encoding (line 95): split on signs, normalize, pair up and
parse each body, attaching the sign to each parsed group. -/
def string_to_encoding (data : String) : Except PyErr (List Group) :=
  match pairUp (normTokens data.data) with
  | none => Except.error PyErr.assertError
  | some pairs =>
    exMapM (fun p =>
      match substring_to_group p.2 with
      | Except.error e => Except.error e
      | Except.ok (lead, partitions) => Except.ok (Group.mk p.1 lead partitions)) pairs

/-! ## The text layout engine (lines 119-195 of the source) -/

/-- Column height of a partition (line 158): the largest entry, at least 1. -/
def maxPartI (p : List Int) : Int :=
  max (pyMaxI p) 1

/-- The first-line glyph of one partition (lines 159-162): the sentinel
partition [0] is the literal one token, otherwise x repeated by the first
entry padded with spaces to the column height. -/
def first_line_part (p : List Int) : String :=
  if p.length == 1 && p.headD 0 == 0 then "1"
  else pyRepl 'x' (p.headD 0) ++ pyRepl ' ' (maxPartI p - p.headD 0)

/-- Row i of one partition on the lines after the first (lines 169-170):
the i-th entry (0 when the partition is shorter) as x characters padded
with spaces to the column height. -/
def row_part (p : List Int) (i : Nat) : String :=
  pyRepl 'x' (p.getD i 0) ++ pyRepl ' ' (maxPartI p - p.getD i 0)

/-- The boundary pair chosen by encoding_to_text (line 184). -/
def textBoundary (tall : Bool) : String × String :=
  if tall then ("(", ")") else (" ", " ")

/-- The first line of a group's block (line 163): sign, space, coefficient
lead, and the partitions' first-line glyphs joined by the separator inside
parentheses. -/
def group_line0 (g : Group) (sep : String) : String :=
  g.sign ++ " " ++ g.lead ++ "(" ++ sepJoin sep (g.partitions.map first_line_part) ++ ")"

/-- One line of the loop at lines 165-171: margin two spaces plus the lead
width, the opening boundary glyph, the row parts joined by a blank run as
wide as the separator, and the closing boundary glyph. -/
def group_row_line (g : Group) (sep : String) (boundary : String × String) (i : Nat) : String :=
  "  " ++ pyRepl ' ' (g.lead.length : Int) ++ boundary.1 ++
    sepJoin (pyRepl ' ' (sep.length : Int)) (g.partitions.map (fun p => row_part p i)) ++
    boundary.2

/-- The unstripped line list a group renders to (lines 156-172). -/
def group_lines_raw (g : Group) (sep : String) (boundary : String × String) : List String :=
  group_line0 g sep ::
    (List.range' 1 (natMaxList (g.partitions.map List.length) - 1)).map
      (group_row_line g sep boundary)

/-- group_to_lines (line 144): the list of equal-width lines for one group.
A ValueError (max over an empty sequence, for a group without partitions or
with an empty partition) and the final assert are surfaced in the Except.
The spacing between row parts is a blank run as wide as the separator, so
the loop at lines 166-170 is the join of the row parts by that blank run;
for the first group with a plus sign the two leading characters of every
line are dropped (lines 173-174). -/
def group_to_lines (g : Group) (idx : Nat) (sep : String) (boundary : String × String) :
    Except PyErr (List String) :=
  if g.partitions.isEmpty || g.partitions.any List.isEmpty then Except.error PyErr.valueError
  else
    let lines := group_lines_raw g sep boundary
    let lines := if idx == 0 && g.sign == "+" then
        lines.map (fun l => String.mk (l.data.drop 2))
      else lines
    if lines.all (fun l => l.length == (lines.headD "").length) then Except.ok lines
    else Except.error PyErr.assertError

/-- First-line width of a rendered block, the len of its line 0 used by the
wrapping rule (line 135); the blocks fed to the wrapper are never empty. -/
def firstLineWidth (b : List String) : Nat :=
  (b.headD "").length

/-- Sum of the first-line widths of the blocks of a chunk. -/
def sumW (c : List (List String)) : Nat :=
  (c.map firstLineWidth).sum

/-- The inner while loop of join_lines (line 135): keep appending blocks to
the chunk while the sum of the first-line widths of the blocks already in
the chunk plus the next first-line width stays strictly below the adjusted
width.  Returns the finished chunk and the unplaced blocks. -/
def takeChunk (T : Nat) (chunk : List (List String)) :
    List (List String) → List (List String) × List (List String)
  | [] => (chunk, [])
  | b :: rest =>
    if sumW chunk + firstLineWidth b < T then takeChunk T (chunk ++ [b]) rest
    else (chunk, b :: rest)

/-- The outer while loop of join_lines (line 132), with fuel (always called
with fuel at least the list length, which suffices since takeChunk consumes
at least the chunk's first block). -/
def greedyGo (T : Nat) : Nat → List (List String) → List (List (List String))
  | _, [] => []
  | 0, _ :: _ => []
  | fuel + 1, b :: rest =>
    let r := takeChunk T [b] rest
    r.1 :: greedyGo T fuel r.2

/-- The chunk decomposition computed by join_lines. -/
def greedyChunks (T : Nat) (bs : List (List String)) : List (List (List String)) :=
  greedyGo T bs.length bs

/-- The adjusted width of join_lines line 131, int(max_width * 0.9): the
float product truncates to the floor of nine tenths of the width for every
terminal-sized width. -/
def adjustedWidth (max_width : Nat) : Nat :=
  9 * max_width / 10

/-- The row-by-row text of one chunk (lines 138-140): for every row index
the blocks' lines joined by one space, the rows joined by newlines. -/
def chunkText (max_lines : Nat) (chunk : List (List String)) : String :=
  sepJoin "\n" ((List.range max_lines).map (fun i =>
    sepJoin " " (chunk.map (fun lines => lines.getD i ""))))

/-- join_lines (line 119): greedy chunking followed by the row-by-row join,
chunks separated by a blank line.  Indexing a block shorter than max_lines
raises IndexError; the caller pads every block to max_lines first. -/
def join_lines (line_groups : List (List String)) (max_lines max_width : Nat) :
    Except PyErr String :=
  if max_lines ≠ 0 && line_groups.any (fun l => l.length < max_lines) then
    Except.error PyErr.indexError
  else
    Except.ok (sepJoin "\n\n" ((greedyChunks (adjustedWidth max_width) line_groups).map
      (chunkText max_lines)))

/-- encoding_to_text (line 179): render every group, pad all blocks to the
same line count with blank lines of the block's own width, then join either
unwrapped or through join_lines.  The max over an empty encoding raises
ValueError. -/
def encoding_to_text (encoding : List Group) (sep : String) (max_width : Option Nat)
    (tall : Bool) : Except PyErr String :=
  match exMapM (fun ig => group_to_lines ig.2 ig.1 sep (textBoundary tall)) encoding.enum with
  | Except.error e => Except.error e
  | Except.ok line_groups =>
    if line_groups.isEmpty then Except.error PyErr.valueError
    else
      let max_lines := natMaxList (line_groups.map List.length)
      let padded := line_groups.map (fun lines =>
        lines ++ List.replicate (max_lines - lines.length)
          (pyRepl ' ' ((lines.headD "").length : Int)))
      match max_width with
      | none =>
        Except.ok (sepJoin "\n" ((List.range max_lines).map (fun i =>
          sepJoin " " (padded.map (fun lines => lines.getD i "")))))
      | some w => join_lines padded max_lines w

/-! ## The markup renderer (lines 198-229 of the source) -/

/-- partition_to_latex (line 198): the sentinel partition [0] is the literal
one token; otherwise one row of cell tokens per positive entry, wrapped in
a command or an environment. -/
def partition_to_latex (partition : List Int) (command : String) (environment : Bool) :
    String :=
  if partition.length == 1 && partition.headD 0 == 0 then "1"
  else
    let compact_partition := partition.filter (fun p => 0 < p)
    let parts := compact_partition.map (fun p => sepJoin (" & ") (List.replicate p.toNat "~"))
    if environment then
      "\\begin\x7b" ++ command ++ "\x7d " ++ sepJoin (" \\\\ ") parts ++
        "\\end\x7b" ++ command ++ "\x7d"
    else
      "\\" ++ command ++ "\x7b" ++ sepJoin (" \\\\ ") parts ++ "\x7d"

/-- The concatenation built by the loop of encoding_to_latex
(lines 221-225): each group prefixed by a newline, its sign, a space and
its lead, the partition renderings joined by the separator inside a scaled
parenthesis pair. -/
def rawLatex (encoding : List Group) (sep command : String) (environment : Bool) : String :=
  encoding.foldl
    (fun acc g =>
      acc ++ ("\n" ++ g.sign ++ " " ++ g.lead ++ ("\\left(") ++
        sepJoin sep (g.partitions.map (fun p => partition_to_latex p command environment)) ++
        ("\\right) ")))
    ""

/-- encoding_to_latex (line 217): drop the leading newline, strip a leading
plus, and strip surrounding whitespace.  Indexing the output of an empty
encoding raises IndexError (line 227). -/
def encoding_to_latex (encoding : List Group) (sep command : String) (environment : Bool) :
    Except PyErr String :=
  let output := (rawLatex encoding sep command environment).data.drop 1
  match output with
  | [] => Except.error PyErr.indexError
  | c :: rest =>
    let output := if c = '+' then rest else c :: rest
    Except.ok (String.mk (pyStripChars output))

/-! ## The presentation driver (line 232 of the source) -/

/-- The caller-supplied configuration of display_partitions.  termWidth
models the terminal width probed by the excluded driver when wrapping is
on. -/
structure Config where
  sep : Option String
  as_latex : Bool
  latex_command : Option String
  latex_environment : Bool
  wrapping : Bool
  termWidth : Nat
  tall : Bool
  verbose : Bool

/-- Observable outcome of one display_partitions call: what was printed, in
order, and whether an exception escaped the call (the bare raise under
verbose at lines 241 and 281). -/
structure DisplayResult where
  printed : List String
  raised : Bool
deriving DecidableEq

/-- The validation test of line 245: a group whose Python list has length
one.  A parsed group is [sign, lead, partitions...], so its length is at
least two and this test never succeeds (see the claim on empty groups). -/
def hasInvalidGroup (encoding : List Group) : Bool :=
  encoding.any (fun g => groupListLen g == 1)

/-- The report of lines 246-252 for the groups the validation flagged, with
singular wording for one index and plural wording otherwise. -/
def invalidGroupsMsg (idxs : List Nat) : String :=
  if idxs.length == 1 then
    "Invalid Input: zero length group at index " ++ toString (idxs.headD 0)
  else
    "Invalid Input: zero length groups at indices " ++ toString idxs

/-- The usage example printed with the validation report (line 252). -/
def usageExample : String :=
  "(ex: \"S1[3] S2[1, 1] S3[2, 2] S4[1] - S1[3] S2[0] S3[1, 1] S4[1]\")"

/-- display_partitions (line 232): decode, validate, render, with each
failure reported as a message; under verbose the caught exception is
re-raised after the message.  The cosmetic blank line printed only when the
stream is a terminal is omitted. -/
def display_partitions (data : String) (cfg : Config) : DisplayResult :=
  match string_to_encoding data with
  | Except.error _ =>
    DisplayResult.mk ["Failed to Decode Input String"] cfg.verbose
  | Except.ok encoding =>
    if hasInvalidGroup encoding then
      let empty_groups := (encoding.enum.filter (fun ig => groupListLen ig.2 == 1)).map
        (fun ig => ig.1)
      DisplayResult.mk [invalidGroupsMsg empty_groups, usageExample] false
    else
      let rendered : Except PyErr String :=
        if cfg.as_latex then
          encoding_to_latex encoding (cfg.sep.getD (",\\, ")) (cfg.latex_command.getD ("tableau"))
            cfg.latex_environment
        else
          encoding_to_text encoding (cfg.sep.getD (", "))
            (if cfg.wrapping then some cfg.termWidth else none) cfg.tall
      match rendered with
      | Except.ok out => DisplayResult.mk [out] false
      | Except.error _ => DisplayResult.mk ["Failed to Display Encoding"] cfg.verbose

/-! ## Specification-level notions for the wrapping claim -/

/-- A block of one line with the given first-line width; the smallest block
of that width, used to state the wrapping examples. -/
def blockOfWidth (n : Nat) : List String :=
  [pyRepl 'x' (n : Int)]

/-- The appending rule of the greedy wrapper relative to the running sum
acc of the first-line widths of the blocks already in the chunk: each
listed block was appended because acc plus its first-line width stayed
below the threshold T. -/
inductive ChunkOk (T : Nat) : Nat → List (List String) → Prop where
  | nil : ∀ acc, ChunkOk T acc []
  | cons : ∀ acc b rest, acc + firstLineWidth b < T →
      ChunkOk T (acc + firstLineWidth b) rest → ChunkOk T acc (b :: rest)

/-- Greedy packing with threshold T as the claim describes it: the chunks
concatenate back to the block list; every chunk starts with the next
unplaced block and appended each further block under the ChunkOk rule; and
consecutive chunks witness maximality, the first block of the next chunk
no longer fitting after the full previous chunk. -/
def ChunkedGreedily (T : Nat) (bs : List (List String))
    (css : List (List (List String))) : Prop :=
  css.flatten = bs
  ∧ (∀ c ∈ css, ∃ hd tl, c = hd :: tl ∧ ChunkOk T (firstLineWidth hd) tl)
  ∧ css.Chain' (fun c c2 => ∀ b s, c2 = b :: s → ¬ (sumW c + firstLineWidth b < T))

/-- The spec's inner wrapping loop taken at its word: a block is appended
while the width sum stays below nine tenths of max_width in exact
arithmetic (10 times the sum below 9 times the width), with no
truncation.  Compare takeChunk, which uses the truncated adjusted width. -/
def specTakeChunk (W : Nat) (chunk : List (List String)) :
    List (List String) → List (List String) × List (List String)
  | [] => (chunk, [])
  | b :: rest =>
    if 10 * (sumW chunk + firstLineWidth b) < 9 * W then specTakeChunk W (chunk ++ [b]) rest
    else (chunk, b :: rest)

/-- Outer loop of the spec-worded wrapper, with fuel like greedyGo. -/
def specGreedyGo (W : Nat) : Nat → List (List String) → List (List (List String))
  | _, [] => []
  | 0, _ :: _ => []
  | fuel + 1, b :: rest =>
    let r := specTakeChunk W [b] rest
    r.1 :: specGreedyGo W fuel r.2

/-- Greedy chunking as the spec words it, with the exact 0.9 threshold. -/
def specGreedyChunks (W : Nat) (bs : List (List String)) : List (List (List String)) :=
  specGreedyGo W bs.length bs

/-! ## Lemmas about the greedy wrapper -/

theorem sumW_append (c : List (List String)) (b : List String) :
    sumW (c ++ [b]) = sumW c + firstLineWidth b := by
  simp [sumW]

theorem takeChunk_spec (T : Nat) (l : List (List String)) :
    ∀ chunk, ∃ taken rest, takeChunk T chunk l = (chunk ++ taken, rest)
      ∧ l = taken ++ rest
      ∧ ChunkOk T (sumW chunk) taken
      ∧ (rest = [] ∨ ∃ b s, rest = b :: s ∧
          ¬ (sumW (chunk ++ taken) + firstLineWidth b < T)) := by
  induction l with
  | nil =>
    intro chunk
    exact ⟨[], [], by simp [takeChunk], rfl, ChunkOk.nil _, Or.inl rfl⟩
  | cons b l ih =>
    intro chunk
    by_cases h : sumW chunk + firstLineWidth b < T
    · obtain ⟨taken, rest, h1, h2, h3, h4⟩ := ih (chunk ++ [b])
      refine ⟨b :: taken, rest, ?_, ?_, ?_, ?_⟩
      · rw [takeChunk, if_pos h, h1]
        simp
      · simp [h2]
      · exact ChunkOk.cons _ _ _ h (by rwa [← sumW_append])
      · rcases h4 with h4 | ⟨b2, s, hb, hlt⟩
        · exact Or.inl h4
        · refine Or.inr ⟨b2, s, hb, ?_⟩
          rwa [List.append_assoc, List.singleton_append] at hlt
    · exact ⟨[], b :: l, by rw [takeChunk, if_neg h]; simp, rfl, ChunkOk.nil _,
        Or.inr ⟨b, l, rfl, by simpa using h⟩⟩

theorem greedyGo_spec (T : Nat) (fuel : Nat) :
    ∀ (bs : List (List String)), bs.length ≤ fuel →
      ChunkedGreedily T bs (greedyGo T fuel bs) := by
  induction fuel with
  | zero =>
    intro bs hbs
    have hnil : bs = [] := List.eq_nil_of_length_eq_zero (Nat.le_zero.mp hbs)
    subst hnil
    exact ⟨rfl, fun c hc => absurd hc (List.not_mem_nil c), List.chain'_nil⟩
  | succ fuel ih =>
    intro bs hbs
    match bs with
    | [] => exact ⟨rfl, fun c hc => absurd hc (List.not_mem_nil c), List.chain'_nil⟩
    | b :: rest =>
      obtain ⟨taken, rest2, h1, h2, h3, h4⟩ := takeChunk_spec T rest [b]
      have hlen : rest2.length ≤ fuel := by
        have hl := congrArg List.length h2
        simp only [List.length_append] at hl
        simp only [List.length_cons] at hbs
        omega
      obtain ⟨hjoin, hchunks, hchain⟩ := ih rest2 hlen
      have hone : sumW [b] = firstLineWidth b := by simp [sumW]
      have hgo : greedyGo T (fuel + 1) (b :: rest) = (b :: taken) :: greedyGo T fuel rest2 := by
        rw [greedyGo, h1]
        rfl
      rw [hgo]
      refine ⟨?_, ?_, ?_⟩
      · rw [List.flatten_cons, hjoin, h2]
        rfl
      · intro c hc
        rcases List.mem_cons.mp hc with hc | hc
        · exact ⟨b, taken, hc, by rw [← hone]; exact h3⟩
        · exact hchunks c hc
      · refine List.Chain'.cons' hchain ?_
        intro y hy b2 s hys
        rcases h4 with hre | ⟨b3, s3, hb3, hlt⟩
        · subst hre
          have hnilgo : greedyGo T fuel [] = [] := by cases fuel <;> rfl
          rw [hnilgo] at hy
          simp at hy
        · cases hcs : greedyGo T fuel rest2 with
          | nil =>
            rw [hcs] at hy
            simp at hy
          | cons c0 cs =>
            rw [hcs] at hy hjoin
            simp only [List.head?_cons, Option.mem_def, Option.some.injEq] at hy
            subst hy
            rw [hys] at hjoin
            simp only [List.flatten_cons, List.cons_append] at hjoin
            rw [hb3] at hjoin
            have hb23 : b2 = b3 := by
              have := congrArg List.head? hjoin
              simpa using this
            subst hb23
            intro hfit
            exact hlt (by simpa [List.singleton_append] using hfit)

/-! ## Whitespace-only inputs -/

theorem foldr_signStep_nosigns (cs : List Char)
    (h : ∀ c ∈ cs, (c = '+' || c = '-') = false) :
    cs.foldr signStep [[]] = [cs] := by
  induction cs with
  | nil => rfl
  | cons c cs ih =>
    have hc := h c (List.mem_cons_self c cs)
    have ihs := ih (fun d hd => h d (List.mem_cons_of_mem c hd))
    simp only [List.foldr_cons, ihs, signStep, hc, Bool.false_eq_true, if_false]

theorem pySpace_not_sign (c : Char) (h : pySpace c = true) :
    (c = '+' || c = '-') = false := by
  simp only [pySpace, Bool.or_eq_true, decide_eq_true_eq] at h
  rcases h with ((((h | h) | h) | h) | h) | h <;> subst h <;> rfl

theorem pyStripChars_allspace (cs : List Char) (h : ∀ c ∈ cs, pySpace c = true) :
    pyStripChars cs = [] := by
  unfold pyStripChars
  rw [List.dropWhile_eq_nil_iff.mpr h]
  rfl

theorem parse_allspace (data : String) (h : ∀ c ∈ data.data, pySpace c = true) :
    string_to_encoding data = Except.ok [] := by
  have hsplit : pySplitSigns data.data = [String.mk data.data] := by
    unfold pySplitSigns
    rw [foldr_signStep_nosigns data.data (fun c hc => pySpace_not_sign c (h c hc))]
    rfl
  have hstrip : pyStrip (String.mk data.data) = "" := by
    unfold pyStrip
    rw [pyStripChars_allspace data.data h]
  have hnorm : normTokens data.data = [] := by
    unfold normTokens
    rw [hsplit]
    simp [hstrip]
  unfold string_to_encoding
  rw [hnorm]
  rfl

/-! ## C1, C2, C3, C10 -/

/-- C1: the claim promises that every parsed encoding holding a group with
an empty partitions sequence is caught by the pre-render validation, which
reports the 0-based indices.  The code's validation (line 245) tests the
Python length of the group list against 1, but a parsed group is the list
of sign, lead and partitions, of length at least 2, so the test never
succeeds on any encoding: the validation is dead code.  The input Sx
parses to one group with an empty partitions sequence, passes validation
untouched, and rendering is attempted and fails with the generic rendering
message instead of the promised zero-length-group report. -/
theorem c1_empty_group_validation_dead :
    (∀ encoding : List Group, hasInvalidGroup encoding = false)
    ∧ string_to_encoding ("Sx") = Except.ok [Group.mk ("+") ("") []]
    ∧ (Group.mk ("+") ("") []).partitions = []
    ∧ display_partitions ("Sx") (Config.mk none false none false false 60 false false) =
        DisplayResult.mk ["Failed to Display Encoding"] false := by
  refine ⟨?_, rfl, rfl, rfl⟩
  intro encoding
  rw [hasInvalidGroup, List.any_eq_false]
  intro g _
  have h2 : groupListLen g ≠ 1 := by
    unfold groupListLen
    omega
  simp only [beq_iff_eq]
  exact h2

/-- C2 (amended): the greedy wrapper starts a new chunk with the next
unplaced block and keeps appending subsequent blocks exactly as long as
the sum of the first-line widths of the blocks already in the chunk plus
the next block's first-line width stays below the truncated threshold
int(max_width * 0.9); blocks of first-line widths 10, 10, 10 with
max_width 25 are packed into exactly 2 chunks. -/
theorem c2_greedy_wrapping :
    (∀ (max_width : Nat) (line_groups : List (List String)),
      ChunkedGreedily (adjustedWidth max_width) line_groups
        (greedyChunks (adjustedWidth max_width) line_groups))
    ∧ (greedyChunks (adjustedWidth 25)
        [blockOfWidth 10, blockOfWidth 10, blockOfWidth 10]).length = 2 :=
  ⟨fun W bs => greedyGo_spec (adjustedWidth W) bs.length bs le_rfl, by decide⟩

/-- C2 counterexample: with max_width 25 and two blocks of first-line width
11, the sum 22 is below the exact threshold 22.5 of the claim (10 times 22
is below 9 times 25), so the claim's rule keeps both blocks in one chunk;
but the code compares against int(25 * 0.9) = 22 and starts a new chunk,
producing two chunks. -/
theorem c2_wrapping_counterexample :
    (10 * (sumW [blockOfWidth 11] + firstLineWidth (blockOfWidth 11)) < 9 * 25)
    ∧ (specGreedyChunks 25 [blockOfWidth 11, blockOfWidth 11]).length = 1
    ∧ (greedyChunks (adjustedWidth 25) [blockOfWidth 11, blockOfWidth 11]).length = 2 :=
  ⟨by decide, by decide, by decide⟩

/-- C3 counterexample: with verbose set, the decode failure on the input x
is reported and then re-raised (the bare raise at line 241), so an
exception does escape display_partitions, contradicting the claim's
inclusion of verbose = true. -/
theorem c3_verbose_reraises :
    (display_partitions ("x")
      (Config.mk none false none false false 60 false true)).raised = true := rfl

/-- C3 (amended): with verbose = false, every decode, validation or
rendering failure inside display_partitions is reported as a message and
the call returns normally; with verbose = true the caught exception is
re-raised after the message by design. -/
theorem c3_failures_reported_not_raised (data : String) (cfg : Config)
    (h : cfg.verbose = false) :
    (display_partitions data cfg).raised = false := by
  unfold display_partitions
  cases string_to_encoding data with
  | error e => simpa using h
  | ok enc =>
    by_cases hv : hasInvalidGroup enc
    · simp [hv]
    · simp only [hv, Bool.false_eq_true, if_false]
      split
      · rfl
      · simpa using h

theorem c3_witness :
    (Config.mk none false none false false 60 false false).verbose = false
    ∧ (display_partitions ("x")
        (Config.mk none false none false false 60 false false)).raised = false :=
  ⟨rfl, c3_failures_reported_not_raised ("x")
    (Config.mk none false none false false 60 false false) rfl⟩

/-- C10: an input that is empty or all whitespace parses to an encoding
with zero groups, passes the empty-group validation, and fails only inside
rendering, reported as the rendering failure message and never as a decode
error. -/
theorem c10_whitespace_input (data : String) (cfg : Config)
    (h : ∀ c ∈ data.data, pySpace c = true) :
    string_to_encoding data = Except.ok []
    ∧ hasInvalidGroup [] = false
    ∧ display_partitions data cfg =
        DisplayResult.mk ["Failed to Display Encoding"] cfg.verbose := by
  have hp := parse_allspace data h
  refine ⟨hp, rfl, ?_⟩
  unfold display_partitions
  rw [hp]
  by_cases hl : cfg.as_latex
  · simp only [hl, if_true]
    rfl
  · simp only [hl, Bool.false_eq_true, if_false]
    rfl

theorem c10_witness :
    string_to_encoding (" ") = Except.ok []
    ∧ hasInvalidGroup [] = false
    ∧ display_partitions (" ") (Config.mk none false none false true 60 false false) =
        DisplayResult.mk ["Failed to Display Encoding"] false :=
  c10_whitespace_input (" ") (Config.mk none false none false true 60 false false)
    (by decide)

/-! ## Shape of the sign split and C8 -/

theorem signStep_cons (c : Char) (seg : List Char) (rest : List (List Char)) :
    signStep c (seg :: rest) =
      if (c = '+' || c = '-') = true then [] :: [c] :: seg :: rest
      else (c :: seg) :: rest := rfl

theorem signRaw_ne_nil (cs : List Char) : cs.foldr signStep [[]] ≠ [] := by
  induction cs with
  | nil => simp
  | cons c cs ih =>
    simp only [List.foldr_cons]
    cases hcs : cs.foldr signStep [[]] with
    | nil => exact absurd hcs ih
    | cons seg rest =>
      rw [signStep_cons]
      split <;> simp

theorem split_cons_plus (cs : List Char) :
    pySplitSigns ('+' :: cs) = "" :: "+" :: pySplitSigns cs := by
  unfold pySplitSigns
  simp only [List.foldr_cons]
  cases hcs : cs.foldr signStep [[]] with
  | nil => exact absurd hcs (signRaw_ne_nil cs)
  | cons seg rest =>
    rw [signStep_cons, if_pos (by decide)]
    rfl

/-- Alternating shape of the sign split: a leading segment, then sign and
segment tokens in turn. -/
inductive RawShape : List (List Char) → Prop where
  | single : ∀ seg, RawShape [seg]
  | cons : ∀ seg c rest, (c = '+' ∨ c = '-') → RawShape rest → RawShape (seg :: [c] :: rest)

theorem rawShape_foldr (cs : List Char) : RawShape (cs.foldr signStep [[]]) := by
  induction cs with
  | nil => exact RawShape.single []
  | cons c cs ih =>
    simp only [List.foldr_cons]
    cases hcs : cs.foldr signStep [[]] with
    | nil => exact absurd hcs (signRaw_ne_nil cs)
    | cons seg rest =>
      rw [hcs] at ih
      rw [signStep_cons]
      by_cases hc : (c = '+' || c = '-') = true
      · rw [if_pos hc]
        exact RawShape.cons [] c (seg :: rest) (by simpa using hc) ih
      · rw [if_neg hc]
        cases ih with
        | single => exact RawShape.single (c :: seg)
        | cons s c2 r2 hc2 hr2 => exact RawShape.cons (c :: seg) c2 r2 hc2 hr2

/-- Alternating shape after the tokens are turned into strings and
stripped: a leading segment, then a plus-or-minus token and a segment in
turn. -/
inductive TokShape : List String → Prop where
  | single : ∀ seg, TokShape [seg]
  | cons : ∀ seg sg rest, (sg = "+" ∨ sg = "-") → TokShape rest → TokShape (seg :: sg :: rest)

theorem tokShape_split (cs : List Char) : TokShape ((pySplitSigns cs).map pyStrip) := by
  have h := rawShape_foldr cs
  have hdef : (pySplitSigns cs).map pyStrip =
      ((cs.foldr signStep [[]]).map (fun l => String.mk l)).map pyStrip := rfl
  rw [hdef]
  revert h
  generalize cs.foldr signStep [[]] = raw
  intro h
  induction h with
  | single seg => exact TokShape.single _
  | cons seg c rest hc hr ih =>
    simp only [List.map_cons]
    refine TokShape.cons _ _ _ ?_ ih
    rcases hc with hc | hc <;> subst hc
    · exact Or.inl rfl
    · exact Or.inr rfl

/-- After normalization the token list alternates sign, body, sign, body. -/
inductive SignFirst : List String → Prop where
  | nil : SignFirst []
  | pair : ∀ sg body rest, (sg = "+" ∨ sg = "-") → SignFirst rest → SignFirst (sg :: body :: rest)
  | one : ∀ sg, (sg = "+" ∨ sg = "-") → SignFirst [sg]

theorem signFirst_cons_tokShape (l : List String) (h : TokShape l) :
    ∀ sg, (sg = "+" ∨ sg = "-") → SignFirst (sg :: l) := by
  induction h with
  | single seg =>
    intro sg hsg
    exact SignFirst.pair sg seg [] hsg SignFirst.nil
  | cons seg sg' rest hsg' hr ih =>
    intro sg hsg
    exact SignFirst.pair sg seg (sg' :: rest) hsg (ih sg' hsg')

theorem signFirst_norm (cs : List Char) : SignFirst (normTokens cs) := by
  have h := tokShape_split cs
  have hdef : normTokens cs =
      (if (((pySplitSigns cs).map pyStrip).headD "").length = 0
        then ((pySplitSigns cs).map pyStrip).drop 1
        else "+" :: (pySplitSigns cs).map pyStrip) := rfl
  rw [hdef]
  revert h
  generalize (pySplitSigns cs).map pyStrip = l
  intro h
  cases h with
  | single seg =>
    by_cases h0 : ((([seg] : List String).headD "").length = 0)
    · rw [if_pos h0]
      exact SignFirst.nil
    · rw [if_neg h0]
      exact SignFirst.pair "+" seg [] (Or.inl rfl) SignFirst.nil
  | cons seg sg rest hsg hr =>
    by_cases h0 : (((seg :: sg :: rest) : List String).headD "").length = 0
    · rw [if_pos h0]
      exact signFirst_cons_tokShape rest hr sg hsg
    · rw [if_neg h0]
      exact SignFirst.pair "+" seg (sg :: rest) (Or.inl rfl)
        (signFirst_cons_tokShape rest hr sg hsg)

theorem pairUp_signs (l : List String) (hsf : SignFirst l) :
    ∀ pairs, pairUp l = some pairs → ∀ p ∈ pairs, p.1 = "+" ∨ p.1 = "-" := by
  induction hsf with
  | nil =>
    intro pairs h p hp
    simp only [pairUp, Option.some.injEq] at h
    subst h
    cases hp
  | one sg hsg =>
    intro pairs h
    cases h
  | pair sg body rest hsg hrest ih =>
    intro pairs h p hp
    rw [show pairUp (sg :: body :: rest) = (pairUp rest).map (fun l => (sg, body) :: l)
      from rfl] at h
    cases hpr : pairUp rest with
    | none =>
      rw [hpr] at h
      cases h
    | some prs =>
      rw [hpr] at h
      injection h with h
      subst h
      rcases List.mem_cons.mp hp with hp1 | hp2
      · rw [hp1]
        exact hsg
      · exact ih prs hpr p hp2

theorem exMapM_ok_mem (f : α → Except PyErr β) (l : List α) (r : List β)
    (h : exMapM f l = Except.ok r) : ∀ y ∈ r, ∃ x ∈ l, f x = Except.ok y := by
  induction l generalizing r with
  | nil =>
    simp only [exMapM, Except.ok.injEq] at h
    subst h
    intro y hy
    cases hy
  | cons a l ih =>
    rw [exMapM] at h
    cases hfa : f a with
    | error e =>
      rw [hfa] at h
      cases h
    | ok b =>
      rw [hfa] at h
      cases hml : exMapM f l with
      | error e =>
        rw [hml] at h
        cases h
      | ok bs =>
        rw [hml] at h
        cases h
        intro y hy
        rcases List.mem_cons.mp hy with hy1 | hy2
        · exact ⟨a, List.mem_cons_self a l, hy1 ▸ hfa⟩
        · obtain ⟨x, hx, hfx⟩ := ih bs hml y hy2
          exact ⟨x, List.mem_cons_of_mem a hx, hfx⟩

/-- C8: parsing S1[3] and +S1[3] yields identical encodings; in general an
input whose first stripped token is non-empty parses exactly as the same
input with an explicit leading plus, and every parsed group carries the
explicit sign plus or minus. -/
theorem c8_sign_normalization (data : String)
    (h : ((pySplitSigns data.data).map pyStrip).headD "" ≠ "") :
    string_to_encoding ("+" ++ data) = string_to_encoding data
    ∧ ∀ enc, string_to_encoding data = Except.ok enc →
        ∀ g ∈ enc, g.sign = "+" ∨ g.sign = "-" := by
  constructor
  · have hd : ("+" ++ data).data = '+' :: data.data := rfl
    have hlen : ¬ ((((pySplitSigns data.data).map pyStrip).headD "").length = 0) := by
      intro hc
      apply h
      cases hh : ((pySplitSigns data.data).map pyStrip).headD "" with
      | mk d =>
        rw [hh] at hc
        cases d with
        | nil => rfl
        | cons c cs => simp [String.length] at hc
    have hnt : normTokens ('+' :: data.data) = normTokens data.data := by
      have h1 : normTokens ('+' :: data.data) =
          "+" :: (pySplitSigns data.data).map pyStrip := by
        unfold normTokens
        rw [split_cons_plus]
        rfl
      have h2 : normTokens data.data = "+" :: (pySplitSigns data.data).map pyStrip := by
        unfold normTokens
        exact if_neg hlen
      rw [h1, h2]
    unfold string_to_encoding
    rw [hd, hnt]
  · intro enc henc g hg
    unfold string_to_encoding at henc
    cases hpu : pairUp (normTokens data.data) with
    | none =>
      rw [hpu] at henc
      cases henc
    | some pairs =>
      rw [hpu] at henc
      obtain ⟨p, hp, hfp⟩ := exMapM_ok_mem _ _ _ henc g hg
      have hsg := pairUp_signs _ (signFirst_norm data.data) pairs hpu p hp
      cases hs : substring_to_group p.2 with
      | error e =>
        rw [hs] at hfp
        cases hfp
      | ok lp =>
        rw [hs] at hfp
        cases lp with
        | mk lead partitions =>
          have hgp : g = Group.mk p.1 lead partitions := by
            cases hfp
            rfl
          rw [hgp]
          exact hsg

theorem c8_witness :
    string_to_encoding ("+" ++ "S1[3]") = string_to_encoding ("S1[3]")
    ∧ string_to_encoding ("S1[3]") = Except.ok [Group.mk ("+") ("") [[3]]] :=
  ⟨(c8_sign_normalization ("S1[3]") (by decide)).1, rfl⟩

/-! ## Decode failures and the label sort: C9 and C5 -/

theorem exMapM_error_of_mem (f : α → Except PyErr β) (l : List α) (x : α)
    (hx : x ∈ l) (hfx : ∃ e, f x = Except.error e) :
    ∃ e2, exMapM f l = Except.error e2 := by
  induction l with
  | nil => cases hx
  | cons a l ih =>
    cases hfa : f a with
    | error e2 =>
      refine ⟨e2, ?_⟩
      rw [exMapM, hfa]
    | ok b =>
      rcases List.mem_cons.mp hx with h1 | h2
      · subst h1
        obtain ⟨e, he⟩ := hfx
        rw [hfa] at he
        cases he
      · obtain ⟨e2, hm⟩ := ih h2
        refine ⟨e2, ?_⟩
        rw [exMapM, hfa, hm]

/-- The parse of a group body once its term extraction is known: sort the
terms by label, then read the partition texts in sorted order. -/
theorem substring_to_group_eq (s : String) (lead : List Char)
    (terms : List (Int × List Char))
    (h : extractTerms s.data = Except.ok (lead, terms)) :
    substring_to_group s =
      match exMapM (fun t => parsePartText t.2) (List.insertionSort labelLE terms) with
      | Except.error e => Except.error e
      | Except.ok partitions => Except.ok (String.mk lead, partitions) := by
  unfold substring_to_group
  rw [h]

theorem stringToGroup_step_error (p : String × String) (e : PyErr)
    (h : substring_to_group p.2 = Except.error e) :
    (match substring_to_group p.2 with
      | Except.error e2 => Except.error e2
      | Except.ok (lead, partitions) =>
        Except.ok (Group.mk p.1 lead partitions) : Except PyErr Group) = Except.error e := by
  rw [h]

/-- C9: a bracketed list entry that does not read as an integer makes the
group parse raise, which makes the whole decode fail, and a decode failure
is reported with the decode message, distinct from validation and
rendering reports. -/
theorem c9_nonint_entry_decode_failure (s : String) (lead : List Char)
    (terms : List (Int × List Char))
    (h1 : extractTerms s.data = Except.ok (lead, terms))
    (h2 : ∃ t ∈ terms, ∃ en ∈ splitComma t.2, pyInt (String.mk en) = none) :
    (∃ e, substring_to_group s = Except.error e)
    ∧ (∀ (data : String) (pairs : List (String × String)) (sg : String),
        pairUp (normTokens data.data) = some pairs → (sg, s) ∈ pairs →
        ∃ e, string_to_encoding data = Except.error e)
    ∧ (∀ (data : String) (cfg : Config) (e : PyErr),
        string_to_encoding data = Except.error e →
        display_partitions data cfg =
          DisplayResult.mk ["Failed to Decode Input String"] cfg.verbose) := by
  obtain ⟨t, ht, en, hen, hpi⟩ := h2
  have hppt : ∃ e, parsePartText t.2 = Except.error e := by
    apply exMapM_error_of_mem _ _ en hen
    refine ⟨PyErr.valueError, ?_⟩
    show (match pyInt (String.mk en) with
      | some n => Except.ok n
      | none => Except.error PyErr.valueError : Except PyErr Int) = Except.error PyErr.valueError
    rw [hpi]
  have hsort : t ∈ List.insertionSort labelLE terms := by
    rw [List.mem_insertionSort]
    exact ht
  obtain ⟨e3, he3⟩ := exMapM_error_of_mem (fun t => parsePartText t.2) _ t hsort hppt
  have hsg : substring_to_group s = Except.error e3 := by
    rw [substring_to_group_eq s lead terms h1, he3]
  refine ⟨⟨e3, hsg⟩, ?_, ?_⟩
  · intro data pairs sg hpu hmem
    unfold string_to_encoding
    rw [hpu]
    exact exMapM_error_of_mem _ _ (sg, s) hmem ⟨e3, stringToGroup_step_error (sg, s) e3 hsg⟩
  · intro data cfg e he
    unfold display_partitions
    rw [he]

theorem c9_witness :
    (∃ e, substring_to_group ("S1[1, a]") = Except.error e)
    ∧ display_partitions ("S1[1, a]") (Config.mk none false none false false 60 false false) =
        DisplayResult.mk ["Failed to Decode Input String"] false := by
  have h := c9_nonint_entry_decode_failure ("S1[1, a]") [] [((1 : Int), ("1, a").data)] rfl
    (by decide)
  exact ⟨h.1, h.2.2 ("S1[1, a]") (Config.mk none false none false false 60 false false)
    PyErr.valueError rfl⟩

/-- C5 (amended): two inputs whose extracted labeled-partition token lists
are permutations of each other with pairwise distinct labels, and whose
lead text agrees, parse to the same group: the stable sort ascending by
label cancels the permutation. -/
theorem c5_label_sort (s1 s2 : String) (lead : List Char)
    (t1 t2 : List (Int × List Char))
    (h1 : extractTerms s1.data = Except.ok (lead, t1))
    (h2 : extractTerms s2.data = Except.ok (lead, t2))
    (hperm : t1.Perm t2)
    (hnodup : (t1.map Prod.fst).Nodup) :
    substring_to_group s1 = substring_to_group s2 := by
  haveI htot : IsTotal (Int × List Char) labelLE := ⟨fun a b => le_total a.1 b.1⟩
  haveI htr : IsTrans (Int × List Char) labelLE := ⟨fun a b c hab hbc => le_trans hab hbc⟩
  haveI hanti : IsAntisymm (Int × List Char) (fun a b => a.1 < b.1) :=
    ⟨fun a b hab hba => absurd (lt_trans hab hba) (lt_irrefl _)⟩
  have hsorteq : List.insertionSort labelLE t1 = List.insertionSort labelLE t2 := by
    have hp : (List.insertionSort labelLE t1).Perm (List.insertionSort labelLE t2) :=
      ((List.perm_insertionSort labelLE t1).trans hperm).trans
        (List.perm_insertionSort labelLE t2).symm
    have hnd1 : ((List.insertionSort labelLE t1).map Prod.fst).Nodup :=
      (((List.perm_insertionSort labelLE t1).map Prod.fst).nodup_iff).mpr hnodup
    have hnd2 : ((List.insertionSort labelLE t2).map Prod.fst).Nodup :=
      (((List.perm_insertionSort labelLE t2).map Prod.fst).nodup_iff).mpr
        ((hperm.map Prod.fst).nodup_iff.mp hnodup)
    have hpw1 : (List.insertionSort labelLE t1).Pairwise (fun a b => a.1 < b.1) := by
      have hle : (List.insertionSort labelLE t1).Pairwise labelLE :=
        List.sorted_insertionSort labelLE t1
      have hne : (List.insertionSort labelLE t1).Pairwise (fun a b => a.1 ≠ b.1) :=
        List.pairwise_map.mp hnd1
      exact (hle.and hne).imp (fun h => lt_of_le_of_ne h.1 h.2)
    have hpw2 : (List.insertionSort labelLE t2).Pairwise (fun a b => a.1 < b.1) := by
      have hle : (List.insertionSort labelLE t2).Pairwise labelLE :=
        List.sorted_insertionSort labelLE t2
      have hne : (List.insertionSort labelLE t2).Pairwise (fun a b => a.1 ≠ b.1) :=
        List.pairwise_map.mp hnd2
      exact (hle.and hne).imp (fun h => lt_of_le_of_ne h.1 h.2)
    exact List.eq_of_perm_of_sorted hp hpw1 hpw2
  rw [substring_to_group_eq s1 lead t1 h1, substring_to_group_eq s2 lead t2 h2, hsorteq]

/-- C5 counterexample: the inputs S1[1] S1[2] and S1[2] S1[1] differ only
by a permutation of their labeled-partition tokens, yet parse to different
partitions sequences, because the stable sort keeps the original order of
equal labels. -/
theorem c5_counterexample :
    extractTerms (("S1[1] S1[2]").data) =
      Except.ok ([], [((1 : Int), ("1").data), (1, ("2").data)])
    ∧ extractTerms (("S1[2] S1[1]").data) =
      Except.ok ([], [((1 : Int), ("2").data), (1, ("1").data)])
    ∧ List.Perm [((1 : Int), ("1").data), (1, ("2").data)]
        [((1 : Int), ("2").data), (1, ("1").data)]
    ∧ substring_to_group ("S1[1] S1[2]") = Except.ok (("", [[1], [2]]))
    ∧ substring_to_group ("S1[2] S1[1]") = Except.ok (("", [[2], [1]]))
    ∧ ([[1], [2]] : List (List Int)) ≠ [[2], [1]] :=
  ⟨rfl, rfl, List.Perm.swap _ _ _, rfl, rfl, by decide⟩

theorem c5_witness :
    extractTerms (("S2[1] S1[3]").data) =
      Except.ok ([], [((2 : Int), ("1").data), (1, ("3").data)])
    ∧ substring_to_group ("S2[1] S1[3]") = substring_to_group ("S1[3] S2[1]") :=
  ⟨rfl, c5_label_sort ("S2[1] S1[3]") ("S1[3] S2[1]") []
    [((2 : Int), ("1").data), (1, ("3").data)] [((1 : Int), ("3").data), (2, ("1").data)]
    rfl rfl (List.Perm.swap _ _ _) (by decide)⟩

/-! ## The sentinel partition: C6 -/

theorem data_append (s t : String) : (s ++ t).data = s.data ++ t.data := rfl

theorem pyRepl_data (c : Char) (n : Int) : (pyRepl c n).data = List.replicate n.toNat c := rfl

theorem head?_data_append (s t : String) (c : Char) (hc : s.data.head? = some c) :
    (s ++ t).data.head? = some c := by
  rw [data_append]
  cases hd : s.data with
  | nil =>
    rw [hd] at hc
    cases hc
  | cons a l =>
    rw [hd] at hc
    injection hc with hc
    subst hc
    rfl

/-- The sentinel test of lines 159 and 207 only accepts the exact
single-element partition holding zero. -/
theorem sentinel_cond_eq (p : List Int) (h : (p.length == 1 && p.headD 0 == 0) = true) :
    p = [0] := by
  rw [Bool.and_eq_true, beq_iff_eq, beq_iff_eq] at h
  obtain ⟨h1, h2⟩ := h
  obtain ⟨a, ha⟩ := List.length_eq_one.mp h1
  subst ha
  simp only [List.headD_cons] at h2
  rw [h2]

/-- C6: the sentinel partition [0] renders as the literal one token in both
the text renderer's first-line glyph and the markup renderer, and no other
partition ever renders as that token. -/
theorem c6_sentinel_partition (p : List Int) (command : String) (environment : Bool)
    (hp : p ≠ [0]) :
    first_line_part [0] = "1"
    ∧ partition_to_latex [0] command environment = "1"
    ∧ first_line_part p ≠ "1"
    ∧ partition_to_latex p command environment ≠ "1" := by
  refine ⟨rfl, rfl, ?_, ?_⟩
  · unfold first_line_part
    by_cases hc : (p.length == 1 && p.headD 0 == 0) = true
    · exact absurd (sentinel_cond_eq p hc) hp
    · rw [if_neg hc]
      intro heq
      have hmem : ('1' : Char) ∈
          (pyRepl 'x' (p.headD 0) ++ pyRepl ' ' (maxPartI p - p.headD 0)).data := by
        rw [heq]
        exact List.mem_singleton.mpr rfl
      rw [data_append, pyRepl_data, pyRepl_data] at hmem
      rcases List.mem_append.mp hmem with hm | hm
      · exact absurd (List.eq_of_mem_replicate hm) (by decide)
      · exact absurd (List.eq_of_mem_replicate hm) (by decide)
  · unfold partition_to_latex
    by_cases hc : (p.length == 1 && p.headD 0 == 0) = true
    · exact absurd (sentinel_cond_eq p hc) hp
    · rw [if_neg hc]
      cases environment with
      | true =>
        rw [if_pos rfl]
        intro heq
        have hh : ((("\\begin\x7b" : String) ++ command ++ ("\x7d ") ++
            sepJoin (" \\\\ ") ((p.filter (fun q => 0 < q)).map
              (fun q => sepJoin (" & ") (List.replicate q.toNat "~"))) ++
            ("\\end\x7b") ++ command ++ ("\x7d")).data.head?) = some '\\' := by
          repeat apply head?_data_append
          rfl
        rw [heq] at hh
        cases hh
      | false =>
        rw [if_neg (by simp)]
        intro heq
        have hh : ((("\\" : String) ++ command ++ ("\x7b") ++
            sepJoin (" \\\\ ") ((p.filter (fun q => 0 < q)).map
              (fun q => sepJoin (" & ") (List.replicate q.toNat "~"))) ++
            ("\x7d")).data.head?) = some '\\' := by
          repeat apply head?_data_append
          rfl
        rw [heq] at hh
        cases hh

theorem c6_witness :
    first_line_part [0] = "1"
    ∧ partition_to_latex [0] ("tableau") false = "1"
    ∧ first_line_part [1] ≠ "1"
    ∧ partition_to_latex [1] ("tableau") false ≠ "1" :=
  c6_sentinel_partition [1] ("tableau") false (by decide)

/-! ## Implicit plus stripping: C7 -/

theorem pyStripChars_head? (cs : List Char) (c : Char)
    (h : (pyStripChars cs).head? = some c) : (cs.dropWhile pySpace).head? = some c := by
  unfold pyStripChars at h
  have hpre : (((cs.dropWhile pySpace).reverse.dropWhile pySpace).reverse) <+:
      cs.dropWhile pySpace := by
    rw [← List.reverse_suffix]
    simpa using List.dropWhile_suffix (l := (cs.dropWhile pySpace).reverse) pySpace
  obtain ⟨t, ht⟩ := hpre
  rw [← ht]
  cases hd : ((cs.dropWhile pySpace).reverse.dropWhile pySpace).reverse with
  | nil =>
    rw [hd] at h
    cases h
  | cons a r =>
    rw [hd] at h
    injection h with h
    subst h
    rfl

theorem dropWhile_head_mem_or (p : Char → Bool) (l₁ l₂ : List Char) (c : Char)
    (h : (List.dropWhile p (l₁ ++ l₂)).head? = some c) :
    c ∈ l₁ ∨ (l₂.dropWhile p).head? = some c := by
  induction l₁ with
  | nil => exact Or.inr h
  | cons a l ih =>
    rw [List.cons_append, List.dropWhile_cons] at h
    by_cases hp : p a = true
    · rw [if_pos hp] at h
      rcases ih h with h1 | h2
      · exact Or.inl (List.mem_cons_of_mem a h1)
      · exact Or.inr h2
    · rw [if_neg hp] at h
      injection h with h
      subst h
      exact Or.inl (List.mem_cons_self a l)

theorem head?_append_cases (l₁ l₂ : List Char) (c : Char)
    (h : (l₁ ++ l₂).head? = some c) : c ∈ l₁ ∨ l₂.head? = some c := by
  cases l₁ with
  | nil => exact Or.inr h
  | cons a l =>
    injection h with h
    subst h
    exact Or.inl (List.mem_cons_self a l)

theorem all_len_map_drop (lines : List String)
    (h : lines.all (fun l => l.length == (lines.headD "").length) = true) :
    (lines.map (fun l => String.mk (l.data.drop 2))).all
      (fun l => l.length ==
        ((lines.map (fun l => String.mk (l.data.drop 2))).headD "").length) = true := by
  cases lines with
  | nil => rfl
  | cons l0 rest =>
    rw [List.all_eq_true] at h ⊢
    intro x hx
    obtain ⟨y, hy, hxy⟩ := List.mem_map.mp hx
    subst hxy
    have hylen : y.length = l0.length := by
      have hh := h y hy
      rw [List.headD_cons] at hh
      exact beq_iff_eq.mp hh
    rw [beq_iff_eq]
    show (y.data.drop 2).length = (l0.data.drop 2).length
    rw [List.length_drop, List.length_drop]
    show y.length - 2 = l0.length - 2
    rw [hylen]

/-- Dropping the two leading characters from every line is exactly what the
idx = 0 strip of a leading plus group does: the block at index 0 is the
block at a later index with every line's first two characters removed. -/
theorem group_to_lines_strip (g : Group) (sep : String) (b : String × String)
    (hsign : g.sign = "+") (lines1 : List String)
    (h0 : group_to_lines g 1 sep b = Except.ok lines1) :
    group_to_lines g 0 sep b = Except.ok (lines1.map (fun l => String.mk (l.data.drop 2))) := by
  unfold group_to_lines at h0 ⊢
  by_cases hg : (g.partitions.isEmpty || g.partitions.any List.isEmpty) = true
  · rw [if_pos hg] at h0
    cases h0
  · rw [if_neg hg] at h0 ⊢
    have hc1 : ((1 : Nat) == 0 && g.sign == "+") = false := rfl
    have hc0 : ((0 : Nat) == 0 && g.sign == "+") = true := by
      rw [hsign]
      rfl
    rw [hc1] at h0
    rw [hc0]
    simp only [if_true, Bool.false_eq_true, if_false] at h0 ⊢
    by_cases hall : ((group_lines_raw g sep b).all
        (fun l => l.length == ((group_lines_raw g sep b).headD "").length)) = true
    · rw [if_pos hall] at h0
      injection h0 with h0
      subst h0
      rw [if_pos (all_len_map_drop _ hall)]
    · rw [if_neg hall] at h0
      cases h0

theorem foldl_append_hoist (X : Group → String) (gs : List Group) :
    ∀ A : String, List.foldl (fun acc g => acc ++ X g) A gs =
      A ++ List.foldl (fun acc g => acc ++ X g) "" gs := by
  induction gs with
  | nil =>
    intro A
    rw [List.foldl_nil, List.foldl_nil, String.append_empty]
  | cons g gs ih =>
    intro A
    rw [List.foldl_cons, List.foldl_cons, ih (A ++ X g), ih ("" ++ X g),
      String.empty_append, String.append_assoc]

/-- The markup output of a nonempty encoding is its first group's rendering
followed by the remaining groups' renderings. -/
theorem rawLatex_cons (g : Group) (gs : List Group) (sep command : String)
    (environment : Bool) :
    rawLatex (g :: gs) sep command environment =
      ("\n" ++ g.sign ++ " " ++ g.lead ++ ("\\left(") ++
        sepJoin sep (g.partitions.map (fun p => partition_to_latex p command environment)) ++
        ("\\right) ")) ++ rawLatex gs sep command environment := by
  unfold rawLatex
  rw [List.foldl_cons, foldl_append_hoist, String.empty_append]

/-- C7: with a leading plus group, the text renderer drops the two leading
characters of every line (which on the first line are the plus and its
following space), and neither the first stripped text line nor the markup
output starts with a plus glyph. -/
theorem c7_implicit_plus (g : Group) (gs : List Group) (sep sepL cmd : String)
    (tall env : Bool) (lines1 : List String) (s : String)
    (hsign : g.sign = "+")
    (hlead : ∀ c ∈ g.lead.data, c ≠ '+')
    (h0 : group_to_lines g 1 sep (textBoundary tall) = Except.ok lines1)
    (hL : encoding_to_latex (g :: gs) sepL cmd env = Except.ok s) :
    group_to_lines g 0 sep (textBoundary tall) =
      Except.ok (lines1.map (fun l => String.mk (l.data.drop 2)))
    ∧ (lines1.headD "").data.take 2 = ['+', ' ']
    ∧ (∀ lines0, group_to_lines g 0 sep (textBoundary tall) = Except.ok lines0 →
        (lines0.headD "").data.head? ≠ some '+')
    ∧ s.data.head? ≠ some '+' := by
  have hlines1 : lines1 = group_lines_raw g sep (textBoundary tall) := by
    unfold group_to_lines at h0
    by_cases hg : (g.partitions.isEmpty || g.partitions.any List.isEmpty) = true
    · rw [if_pos hg] at h0
      cases h0
    · rw [if_neg hg] at h0
      have hc1 : ((1 : Nat) == 0 && g.sign == "+") = false := rfl
      rw [hc1] at h0
      simp only [Bool.false_eq_true, if_false] at h0
      by_cases hall : ((group_lines_raw g sep (textBoundary tall)).all
          (fun l => l.length ==
            ((group_lines_raw g sep (textBoundary tall)).headD "").length)) = true
      · rw [if_pos hall] at h0
        injection h0 with h0
        exact h0.symm
      · rw [if_neg hall] at h0
        cases h0
  have hline0 : (lines1.headD "") = group_line0 g sep := by
    rw [hlines1]
    rfl
  have hline0data : (group_line0 g sep).data =
      '+' :: ' ' :: (g.lead.data ++ '(' ::
        (sepJoin sep (g.partitions.map first_line_part)).data ++ [')']) := by
    unfold group_line0
    rw [hsign]
    simp [data_append, List.append_assoc]
  refine ⟨group_to_lines_strip g sep (textBoundary tall) hsign lines1 h0, ?_, ?_, ?_⟩
  · rw [hline0, hline0data]
    rfl
  · intro lines0 hl0
    rw [group_to_lines_strip g sep (textBoundary tall) hsign lines1 h0] at hl0
    injection hl0 with hl0
    subst hl0
    rw [hlines1]
    intro hhead
    have hmap : ((group_lines_raw g sep (textBoundary tall)).map
        (fun l => String.mk (l.data.drop 2))).headD "" =
        String.mk ((group_line0 g sep).data.drop 2) := rfl
    rw [hmap] at hhead
    rw [hline0data] at hhead
    have hhead2 : ((g.lead.data ++ '(' ::
        (sepJoin sep (g.partitions.map first_line_part)).data ++ [')']).head?) = some '+' :=
      hhead
    rw [List.append_assoc, List.cons_append] at hhead2
    rcases head?_append_cases _ _ _ hhead2 with hm | hm
    · exact hlead '+' hm rfl
    · cases hm
  · unfold encoding_to_latex at hL
    rw [rawLatex_cons, hsign] at hL
    have hraw : (("\n" ++ ("+" : String) ++ " " ++ g.lead ++ ("\\left(") ++
        sepJoin sepL (g.partitions.map (fun p => partition_to_latex p cmd env)) ++
        ("\\right) ")) ++ rawLatex gs sepL cmd env).data =
        '\n' :: '+' :: ' ' :: (g.lead.data ++ '\\' ::
          (("left(" : String).data ++
            ((sepJoin sepL (g.partitions.map (fun p => partition_to_latex p cmd env))).data ++
              (("\\right) " : String).data ++ (rawLatex gs sepL cmd env).data)))) := by
      rw [show ("\\left(" : String) = "\\" ++ "left(" from rfl]
      simp [data_append, List.append_assoc]
    rw [hraw] at hL
    simp only [List.drop_succ_cons, List.drop_zero, if_true] at hL
    injection hL with hL
    subst hL
    intro hhead
    have hstrip := pyStripChars_head? _ _ hhead
    have hstrip2 : ((g.lead.data ++ '\\' ::
        (("left(" : String).data ++
          ((sepJoin sepL (g.partitions.map (fun p => partition_to_latex p cmd env))).data ++
            (("\\right) " : String).data ++
              (rawLatex gs sepL cmd env).data)))).dropWhile pySpace).head? = some '+' :=
      hstrip
    rcases dropWhile_head_mem_or pySpace _ _ _ hstrip2 with hm | hm
    · exact hlead '+' hm rfl
    · rw [List.dropWhile_cons, if_neg (by decide)] at hm
      cases hm

theorem c7_witness :
    group_to_lines (Group.mk ("+") ("") [[1]]) 0 (", ") (textBoundary false) =
      Except.ok ((["+ (x)"] : List String).map (fun l => String.mk (l.data.drop 2)))
    ∧ ((["+ (x)"] : List String).headD "").data.take 2 = ['+', ' ']
    ∧ (∀ lines0, group_to_lines (Group.mk ("+") ("") [[1]]) 0 (", ") (textBoundary false) =
        Except.ok lines0 → (lines0.headD "").data.head? ≠ some '+')
    ∧ (("\\left(\\tableau\x7b~\x7d\\right)" : String)).data.head? ≠ some '+' :=
  c7_implicit_plus (Group.mk ("+") ("") [[1]]) [] (", ") (",\\, ") ("tableau") false false
    ["+ (x)"] ("\\left(\\tableau\x7b~\x7d\\right)") rfl (by decide) rfl rfl

/-! ## The line-width invariant: C4 -/

theorem pyRepl_length (c : Char) (n : Int) : (pyRepl c n).length = n.toNat := by
  show (List.replicate n.toNat c).length = n.toNat
  exact List.length_replicate n.toNat c

theorem sepJoin_length (sep : String) (parts : List String) :
    (sepJoin sep parts).length =
      (parts.map String.length).sum + sep.length * (parts.length - 1) := by
  induction parts with
  | nil => rfl
  | cons x rest ih =>
    cases rest with
    | nil => simp [sepJoin]
    | cons y r =>
      rw [show sepJoin sep (x :: y :: r) = x ++ sep ++ sepJoin sep (y :: r) from rfl]
      rw [String.length_append, String.length_append, ih]
      simp only [List.map_cons, List.sum_cons, List.length_cons, Nat.add_sub_cancel]
      ring

theorem headD_mem (p : List Int) (d : Int) (hp : p ≠ []) : p.headD d ∈ p := by
  cases p with
  | nil => exact absurd rfl hp
  | cons a t => exact List.mem_cons_self a t

theorem le_foldl_max (t : List Int) : ∀ a : Int, a ≤ t.foldl max a := by
  induction t with
  | nil => intro a; exact le_refl a
  | cons b t ih => intro a; exact le_trans (le_max_left a b) (ih (max a b))

theorem mem_le_foldl_max (t : List Int) : ∀ (a x : Int), x ∈ t → x ≤ t.foldl max a := by
  induction t with
  | nil =>
    intro a x hx
    cases hx
  | cons b t ih =>
    intro a x hx
    rcases List.mem_cons.mp hx with h1 | h2
    · subst h1
      exact le_trans (le_max_right a x) (le_foldl_max t (max a x))
    · exact ih (max a b) x h2

theorem mem_le_pyMaxI (p : List Int) (x : Int) (hx : x ∈ p) : x ≤ pyMaxI p := by
  cases p with
  | nil => cases hx
  | cons a t =>
    rcases List.mem_cons.mp hx with h1 | h2
    · subst h1
      exact le_foldl_max t x
    · exact mem_le_foldl_max t a x h2

theorem mem_le_maxPartI (p : List Int) (x : Int) (hx : x ∈ p) : x ≤ maxPartI p :=
  le_trans (mem_le_pyMaxI p x hx) (le_max_left (pyMaxI p) 1)

theorem one_le_maxPartI (p : List Int) : (1 : Int) ≤ maxPartI p :=
  le_max_right (pyMaxI p) 1

theorem first_line_part_length (p : List Int) (hp : p ≠ []) (hn : ∀ x ∈ p, 0 ≤ x) :
    (first_line_part p).length = (maxPartI p).toNat := by
  unfold first_line_part
  by_cases hc : (p.length == 1 && p.headD 0 == 0) = true
  · rw [if_pos hc, sentinel_cond_eq p hc]
    rfl
  · rw [if_neg hc, String.length_append, pyRepl_length, pyRepl_length]
    have h0 : 0 ≤ p.headD 0 := hn (p.headD 0) (headD_mem p 0 hp)
    have h1 : p.headD 0 ≤ maxPartI p := mem_le_maxPartI p (p.headD 0) (headD_mem p 0 hp)
    omega

theorem row_part_length (p : List Int) (hp : p ≠ []) (hn : ∀ x ∈ p, 0 ≤ x) (i : Nat) :
    (row_part p i).length = (maxPartI p).toNat := by
  unfold row_part
  rw [String.length_append, pyRepl_length, pyRepl_length]
  have h0 : 0 ≤ p.getD i 0 := by
    by_cases hi : i < p.length
    · rw [List.getD_eq_getElem p 0 hi]
      exact hn _ (List.getElem_mem hi)
    · rw [List.getD_eq_default p 0 (le_of_not_lt hi)]
  have h1 : p.getD i 0 ≤ maxPartI p := by
    by_cases hi : i < p.length
    · rw [List.getD_eq_getElem p 0 hi]
      exact mem_le_maxPartI p _ (List.getElem_mem hi)
    · rw [List.getD_eq_default p 0 (le_of_not_lt hi)]
      exact le_trans zero_le_one (one_le_maxPartI p)
  omega

theorem group_line0_length (g : Group) (sep : String)
    (hsign : g.sign = "+" ∨ g.sign = "-")
    (hp : ∀ p ∈ g.partitions, p ≠ [])
    (hn : ∀ p ∈ g.partitions, ∀ x ∈ p, 0 ≤ x) :
    (group_line0 g sep).length =
      4 + g.lead.length +
        ((g.partitions.map (fun p => (maxPartI p).toNat)).sum +
          sep.length * (g.partitions.length - 1)) := by
  unfold group_line0
  simp only [String.length_append]
  rw [sepJoin_length]
  have hmap : (g.partitions.map first_line_part).map String.length =
      g.partitions.map (fun p => (maxPartI p).toNat) := by
    rw [List.map_map]
    exact List.map_congr_left (fun p hp2 => first_line_part_length p (hp p hp2) (hn p hp2))
  rw [hmap]
  have hs : g.sign.length = 1 := by
    rcases hsign with h | h <;> rw [h] <;> rfl
  rw [hs]
  have h1 : (" " : String).length = 1 := rfl
  have h2 : ("(" : String).length = 1 := rfl
  have h3 : (")" : String).length = 1 := rfl
  rw [h1, h2, h3, List.length_map]
  ring

theorem group_row_line_length (g : Group) (sep : String) (b : String × String) (i : Nat)
    (hb1 : b.1.length = 1) (hb2 : b.2.length = 1)
    (hp : ∀ p ∈ g.partitions, p ≠ [])
    (hn : ∀ p ∈ g.partitions, ∀ x ∈ p, 0 ≤ x) :
    (group_row_line g sep b i).length =
      4 + g.lead.length +
        ((g.partitions.map (fun p => (maxPartI p).toNat)).sum +
          sep.length * (g.partitions.length - 1)) := by
  unfold group_row_line
  simp only [String.length_append]
  rw [sepJoin_length]
  have hmap : (g.partitions.map (fun p => row_part p i)).map String.length =
      g.partitions.map (fun p => (maxPartI p).toNat) := by
    rw [List.map_map]
    exact List.map_congr_left (fun p hp2 => row_part_length p (hp p hp2) (hn p hp2) i)
  rw [hmap]
  have h1 : ("  " : String).length = 2 := rfl
  rw [h1, hb1, hb2, pyRepl_length, pyRepl_length, List.length_map]
  have h2 : ((g.lead.length : Int)).toNat = g.lead.length := Int.toNat_natCast g.lead.length
  have h3 : ((sep.length : Int)).toNat = sep.length := Int.toNat_natCast sep.length
  rw [h2, h3]
  ring

theorem textBoundary_fst_length (tall : Bool) : (textBoundary tall).1.length = 1 := by
  cases tall <;> rfl

theorem textBoundary_snd_length (tall : Bool) : (textBoundary tall).2.length = 1 := by
  cases tall <;> rfl

theorem group_lines_raw_len (g : Group) (sep : String) (b : String × String)
    (hb1 : b.1.length = 1) (hb2 : b.2.length = 1)
    (hsign : g.sign = "+" ∨ g.sign = "-")
    (hp : ∀ p ∈ g.partitions, p ≠ [])
    (hn : ∀ p ∈ g.partitions, ∀ x ∈ p, 0 ≤ x) :
    ∀ l ∈ group_lines_raw g sep b, l.length = (group_line0 g sep).length := by
  intro l hl
  rcases List.mem_cons.mp hl with h1 | h2
  · rw [h1]
  · obtain ⟨i, _, hil⟩ := List.mem_map.mp h2
    rw [← hil, group_row_line_length g sep b i hb1 hb2 hp hn,
      group_line0_length g sep hsign hp hn]

/-- The ok result of group_to_lines always satisfies the width check the
source asserts: the function re-checks it before returning. -/
theorem group_to_lines_ok_all_eq (g : Group) (idx : Nat) (sep : String)
    (b : String × String) (lines : List String)
    (h : group_to_lines g idx sep b = Except.ok lines) :
    ∀ l ∈ lines, l.length = (lines.headD "").length := by
  unfold group_to_lines at h
  by_cases hg : (g.partitions.isEmpty || g.partitions.any List.isEmpty) = true
  · rw [if_pos hg] at h
    cases h
  · rw [if_neg hg] at h
    set X := (if (idx == 0 && g.sign == "+") = true then
        (group_lines_raw g sep b).map (fun l => String.mk (l.data.drop 2))
      else group_lines_raw g sep b) with hX
    by_cases hall : (X.all (fun l => l.length == (X.headD "").length)) = true
    · rw [if_pos hall] at h
      injection h with h
      subst h
      intro l hl
      exact beq_iff_eq.mp ((List.all_eq_true.mp hall) l hl)
    · rw [if_neg hall] at h
      cases h

/-- C4: for a valid group (partitions present, entries non-negative, sign
one of plus or minus per the data model), the line-width assert of
group_to_lines never fails, and every line of an ok block has the same
character length. -/
theorem c4_line_width_invariant (g : Group) (idx : Nat) (sep : String) (tall : Bool)
    (hsign : g.sign = "+" ∨ g.sign = "-")
    (hne : g.partitions ≠ [])
    (hnn : ∀ p ∈ g.partitions, ∀ x ∈ p, 0 ≤ x) :
    group_to_lines g idx sep (textBoundary tall) ≠ Except.error PyErr.assertError
    ∧ ∀ lines, group_to_lines g idx sep (textBoundary tall) = Except.ok lines →
        ∀ l ∈ lines, l.length = (lines.headD "").length := by
  refine ⟨?_, fun lines h => group_to_lines_ok_all_eq g idx sep (textBoundary tall) lines h⟩
  unfold group_to_lines
  by_cases hg : (g.partitions.isEmpty || g.partitions.any List.isEmpty) = true
  · rw [if_pos hg]
    intro h
    injection h with h
    cases h
  · rw [if_neg hg]
    have hpne : ∀ p ∈ g.partitions, p ≠ [] := by
      intro p hp2 hpe
      apply hg
      rw [Bool.or_eq_true]
      right
      rw [List.any_eq_true]
      refine ⟨p, hp2, ?_⟩
      rw [hpe]
      rfl
    have hraw := group_lines_raw_len g sep (textBoundary tall)
      (textBoundary_fst_length tall) (textBoundary_snd_length tall) hsign hpne hnn
    have hrawhead : (group_lines_raw g sep (textBoundary tall)).headD "" =
        group_line0 g sep := rfl
    have hallraw : ((group_lines_raw g sep (textBoundary tall)).all
        (fun l => l.length ==
          ((group_lines_raw g sep (textBoundary tall)).headD "").length)) = true := by
      rw [List.all_eq_true]
      intro l hl
      rw [beq_iff_eq, hrawhead]
      exact hraw l hl
    by_cases hc : ((idx == 0 && g.sign == "+")) = true
    · rw [hc]
      simp only [if_true]
      rw [if_pos (all_len_map_drop _ hallraw)]
      intro h
      cases h
    · rw [Bool.not_eq_true] at hc
      rw [hc]
      simp only [Bool.false_eq_true, if_false]
      rw [if_pos hallraw]
      intro h
      cases h

theorem c4_witness :
    group_to_lines (Group.mk ("+") ("2") [[3, 2, 2], [2, 1], [1]]) 0 (", ")
        (textBoundary false) ≠ Except.error PyErr.assertError
    ∧ ∀ lines, group_to_lines (Group.mk ("+") ("2") [[3, 2, 2], [2, 1], [1]]) 0 (", ")
        (textBoundary false) = Except.ok lines →
        ∀ l ∈ lines, l.length = (lines.headD "").length :=
  c4_line_width_invariant (Group.mk ("+") ("2") [[3, 2, 2], [2, 1], [1]]) 0 (", ") false
    (Or.inl rfl) (by decide) (by decide)

end VisPartition
